import Mathlib

set_option maxRecDepth 100000

/-!
Verification of the veritas policy-bound step executor against its
natural-language specification.

The development shallowly embeds the Rust sources of the repository:

* `veritas-contracts` (value model: verdicts, contexts, records, errors),
* `veritas-audit` (`chain.rs` hashing / chain verification, `memory.rs`
  in-memory writer),
* `veritas-policy` (`rule.rs`, `engine.rs`),
* `veritas-verify` (`engine.rs` schema verifier), and
* `veritas-core` (`executor.rs`).

Modelling conventions:

* Rust `u64` counters are `Nat` (no step counter in any claim overflows);
  byte values are `Nat` taken mod 256 where produced.
* `serde_json::Value` is the inductive `Json` below, with numbers restricted
  to integers (no claim exercises float semantics).
* SHA-256 (the external `sha2` crate) is embedded concretely, following
  FIPS 180-4, so hashes compute.
* The external `jsonschema` crate is abstracted as a validator parameter of
  the verifier; everything else is translated from the repository's code.
* `chrono::Utc::now()` timestamps are modelled as the RFC3339 string they
  serialise to, passed in as a parameter (wall-clock time is an input).
* Mutex-protected state (the audit writer) is modelled by explicit state
  passing; lock poisoning cannot arise in a sequential model, so the
  in-memory writer's `write` is total.
-/

/-! ## JSON value model (serde_json::Value restricted to integer numbers) -/

inductive Json where
  | null : Json
  | bool (b : Bool) : Json
  | num (n : Int) : Json
  | str (s : String) : Json
  | arr (elems : List Json) : Json
  | obj (fields : List (String × Json)) : Json

mutual

/-- Structural equality on JSON values, the model of `serde_json::Value`
`PartialEq` (mutual with equality on element and field lists). -/
def Json.beq : Json → Json → Bool
  | .null, .null => true
  | .bool a, .bool b => a == b
  | .num a, .num b => a == b
  | .str a, .str b => a == b
  | .arr a, .arr b => Json.beqList a b
  | .obj a, .obj b => Json.beqFields a b
  | _, _ => false

def Json.beqList : List Json → List Json → Bool
  | [], [] => true
  | x :: xs, y :: ys => Json.beq x y && Json.beqList xs ys
  | _, _ => false

def Json.beqFields : List (String × Json) → List (String × Json) → Bool
  | [], [] => true
  | (k1, v1) :: xs, (k2, v2) :: ys =>
      k1 == k2 && Json.beq v1 v2 && Json.beqFields xs ys
  | _, _ => false

end

instance : BEq Json := ⟨Json.beq⟩

def Json.isNull : Json → Bool
  | .null => true
  | _ => false

/-- Model of serde_json `Value::get(&str)`: key lookup on objects (first
matching key; parsed maps have unique keys), `None` on any other variant. -/
def Json.getKey : Json → String → Option Json
  | .obj fields, key => fields.lookup key
  | _, _ => none

def Json.asStr : Json → Option String
  | .str s => some s
  | _ => none

/-! ## Byte-level primitives: UTF-8, substring search, hex, SHA-256 -/

/-- Standard UTF-8 encoding of one scalar value (RFC 3629). -/
def utf8EncodeCharBytes (c : Char) : List Nat :=
  let v := c.toNat
  if v < 0x80 then [v]
  else if v < 0x800 then [0xC0 + v / 64, 0x80 + v % 64]
  else if v < 0x10000 then [0xE0 + v / 4096, 0x80 + v / 64 % 64, 0x80 + v % 64]
  else [0xF0 + v / 262144, 0x80 + v / 4096 % 64, 0x80 + v / 64 % 64, 0x80 + v % 64]

/-- UTF-8 bytes of a string (Rust `str::as_bytes`). -/
def utf8Bytes (s : String) : List Nat :=
  s.data.flatMap utf8EncodeCharBytes

/-- Model of Rust `str::contains(&str)`: substring containment on the
underlying character sequences. -/
def listContainsSub : List Char → List Char → Bool
  | [], pat => pat.isEmpty
  | s@(_ :: t), pat => pat.isPrefixOf s || listContainsSub t pat

def strContainsSub (s pat : String) : Bool :=
  listContainsSub s.data pat.data

def hexDigitChar (n : Nat) : Char :=
  "0123456789abcdef".data.getD n '0'

/-- Lowercase hex rendering of a byte list (the `hex` crate's `encode`). -/
def hexOfBytes (bs : List Nat) : String :=
  String.mk (bs.flatMap fun b => [hexDigitChar (b / 16 % 16), hexDigitChar (b % 16)])

/-- Arithmetic mod 2^32, the word size of SHA-256. -/
def w32 (x : Nat) : Nat := x % 4294967296

def rotr32 (x n : Nat) : Nat :=
  w32 ((x >>> n) ||| (x <<< (32 - n)))

def shaCh (x y z : Nat) : Nat := (x &&& y) ^^^ ((x ^^^ 4294967295) &&& z)

def shaMaj (x y z : Nat) : Nat := (x &&& y) ^^^ (x &&& z) ^^^ (y &&& z)

def bigSigma0 (x : Nat) : Nat := rotr32 x 2 ^^^ rotr32 x 13 ^^^ rotr32 x 22

def bigSigma1 (x : Nat) : Nat := rotr32 x 6 ^^^ rotr32 x 11 ^^^ rotr32 x 25

def smallSigma0 (x : Nat) : Nat := rotr32 x 7 ^^^ rotr32 x 18 ^^^ (x >>> 3)

def smallSigma1 (x : Nat) : Nat := rotr32 x 17 ^^^ rotr32 x 19 ^^^ (x >>> 10)

def shaK : List Nat :=
  [1116352408, 1899447441, 3049323471, 3921009573, 961987163,
   1508970993, 2453635748, 2870763221, 3624381080, 310598401,
   607225278, 1426881987, 1925078388, 2162078206, 2614888103,
   3248222580, 3835390401, 4022224774, 264347078, 604807628,
   770255983, 1249150122, 1555081692, 1996064986, 2554220882,
   2821834349, 2952996808, 3210313671, 3336571891, 3584528711,
   113926993, 338241895, 666307205, 773529912, 1294757372,
   1396182291, 1695183700, 1986661051, 2177026350, 2456956037,
   2730485921, 2820302411, 3259730800, 3345764771, 3516065817,
   3600352804, 4094571909, 275423344, 430227734, 506948616,
   659060556, 883997877, 958139571, 1322822218, 1537002063,
   1747873779, 1955562222, 2024104815, 2227730452, 2361852424,
   2428436474, 2756734187, 3204031479, 3329325298]

/-- The intermediate hash state of SHA-256: eight 32-bit words. -/
structure Sha256State where
  a : Nat
  b : Nat
  c : Nat
  d : Nat
  e : Nat
  f : Nat
  g : Nat
  h : Nat
deriving DecidableEq

def sha256Init : Sha256State :=
  ⟨1779033703, 3144134277, 1013904242, 2773480762,
   1359893119, 2600822924, 528734635, 1541459225⟩

/-- One round of the SHA-256 compression function. -/
def sha256Round (st : Sha256State) (kw : Nat × Nat) : Sha256State :=
  let t1 := w32 (st.h + bigSigma1 st.e + shaCh st.e st.f st.g + kw.1 + kw.2)
  let t2 := w32 (bigSigma0 st.a + shaMaj st.a st.b st.c)
  ⟨w32 (t1 + t2), st.a, st.b, st.c, w32 (st.d + t1), st.e, st.f, st.g⟩

/-- Extend the sixteen block words to the 64-entry message schedule. -/
def sha256ScheduleStep (w : List Nat) : List Nat :=
  let n := w.length
  w ++ [w32 (smallSigma1 (w.getD (n - 2) 0) + w.getD (n - 7) 0 +
             smallSigma0 (w.getD (n - 15) 0) + w.getD (n - 16) 0)]

def sha256Schedule (ws : List Nat) : List Nat :=
  (List.range 48).foldl (fun w _ => sha256ScheduleStep w) ws

/-- Big-endian 32-bit word from four bytes. -/
def beWord (b0 b1 b2 b3 : Nat) : Nat :=
  b0 * 16777216 + b1 * 65536 + b2 * 256 + b3

/-- The sixteen 32-bit big-endian words of one 64-byte block. -/
def blockWords (block : List Nat) : List Nat :=
  (List.range 16).map fun i =>
    beWord (block.getD (4 * i) 0) (block.getD (4 * i + 1) 0)
           (block.getD (4 * i + 2) 0) (block.getD (4 * i + 3) 0)

def sha256Block (st : Sha256State) (block : List Nat) : Sha256State :=
  let w := sha256Schedule (blockWords block)
  let r := (shaK.zip w).foldl sha256Round st
  ⟨w32 (st.a + r.a), w32 (st.b + r.b), w32 (st.c + r.c), w32 (st.d + r.d),
   w32 (st.e + r.e), w32 (st.f + r.f), w32 (st.g + r.g), w32 (st.h + r.h)⟩

/-- Big-endian 8-byte rendering of a length in bits. -/
def be64 (n : Nat) : List Nat :=
  [n >>> 56 % 256, n >>> 48 % 256, n >>> 40 % 256, n >>> 32 % 256,
   n >>> 24 % 256, n >>> 16 % 256, n >>> 8 % 256, n % 256]

/-- SHA-256 message padding: 0x80, zeros to 56 mod 64, 64-bit bit length. -/
def sha256Pad (msg : List Nat) : List Nat :=
  let l := msg.length
  msg ++ 0x80 :: List.replicate ((119 - l % 64) % 64) 0 ++ be64 (8 * l)

/-- Split a byte list into 64-byte chunks (the padded length is a multiple
of 64, so the last chunk is full).  The fuel argument (initially the list
length, an upper bound on the number of chunks) keeps the recursion
structural so the kernel can evaluate it. -/
def chunks64Aux : Nat → List Nat → List (List Nat)
  | 0, _ => []
  | _, [] => []
  | fuel + 1, l => l.take 64 :: chunks64Aux fuel (l.drop 64)

def chunks64 (l : List Nat) : List (List Nat) :=
  chunks64Aux l.length l

def be32Bytes (x : Nat) : List Nat :=
  [x >>> 24 % 256, x >>> 16 % 256, x >>> 8 % 256, x % 256]

def sha256Digest (msg : List Nat) : List Nat :=
  let fin := (chunks64 (sha256Pad msg)).foldl sha256Block sha256Init
  be32Bytes fin.a ++ be32Bytes fin.b ++ be32Bytes fin.c ++ be32Bytes fin.d ++
  be32Bytes fin.e ++ be32Bytes fin.f ++ be32Bytes fin.g ++ be32Bytes fin.h

/-- Lowercase 64-hex-character SHA-256 of a byte sequence: the composition
`hex::encode(Sha256::digest(bytes))` used by the audit chain. -/
def sha256Hex (msg : List Nat) : String :=
  hexOfBytes (sha256Digest msg)

/-- Sanity check of the SHA-256 embedding against the FIPS 180-4 test
vector for the message "abc". -/
example :
    sha256Hex (utf8Bytes "abc") =
      "ba7816bf8f01cfea414140de5dae2223b00361a396177a9cb410ff61f20015ad" := by
  decide

/-! ## Shared value model (crate veritas-contracts)

`AgentId` / `ExecutionId` newtypes over strings are modelled as the strings
they wrap (the executor only ever uses their string form).  `chrono`
timestamps are modelled as the RFC3339 strings they serialise to. -/

structure AgentState where
  agent_id : String
  execution_id : String
  phase : String
  context : Json
  step : Nat

structure AgentInput where
  kind : String
  payload : Json

structure AgentOutput where
  kind : String
  payload : Json

inductive PolicyVerdict where
  | Allow : PolicyVerdict
  | Deny (reason : String) : PolicyVerdict
  | RequireApproval (reason : String) (approver_role : String) : PolicyVerdict
  | RequireVerification (check_id : String) : PolicyVerdict
deriving DecidableEq

structure PolicyContext where
  agent_id : String
  execution_id : String
  current_phase : String
  action : String
  resource : String
  capabilities : List String
  metadata : Json

structure StepRecord where
  step : Nat
  input : AgentInput
  verdict : PolicyVerdict
  output : Option AgentOutput
  timestamp : String

inductive StepResult where
  | Transitioned (next_state : AgentState) (output : AgentOutput) : StepResult
  | Denied (reason : String) (final_state : AgentState) : StepResult
  | AwaitingApproval (reason : String) (approver_role : String)
      (suspended_state : AgentState) : StepResult
  | Complete (final_state : AgentState) (output : AgentOutput) : StepResult

inductive VeritasError where
  | PolicyDenied (reason : String) : VeritasError
  | CapabilityMissing (capability : String) (action : String) : VeritasError
  | VerificationFailed (reason : String) : VeritasError
  | AuditWriteFailed (reason : String) : VeritasError
  | StateMachineError (reason : String) : VeritasError
  | ConfigError (reason : String) : VeritasError
  | SchemaValidation (reason : String) : VeritasError

structure VerificationFailure where
  rule_id : String
  message : String
deriving DecidableEq

structure VerificationReport where
  passed : Bool
  failures : List VerificationFailure

inductive VerificationRuleType where
  | RequiredField (field_path : String) : VerificationRuleType
  | AllowedValues (field_path : String) (allowed : List Json) : VerificationRuleType
  | ForbiddenPattern (field_path : String) (pattern : String) : VerificationRuleType
  | Custom (function_name : String) : VerificationRuleType

structure VerificationRule where
  rule_id : String
  description : String
  rule_type : VerificationRuleType

structure OutputSchema where
  schema_id : String
  json_schema : Json
  rules : List VerificationRule

/-! ## Canonical JSON serialisation (serde_json::to_vec)

serde_json emits no insignificant whitespace and walks struct fields and
map entries in declaration / insertion order; `Json.render` reproduces
that byte format. -/

/-- serde_json string escaping: quote, backslash, and the C0 control
characters (named escapes for backspace, tab, newline, form feed, carriage
return; \u00XX for the rest). -/
def jsonEscapeChar (c : Char) : List Char :=
  if c = '"' then ['\\', '"']
  else if c = '\\' then ['\\', '\\']
  else if c = Char.ofNat 8 then ['\\', 'b']
  else if c = Char.ofNat 9 then ['\\', 't']
  else if c = Char.ofNat 10 then ['\\', 'n']
  else if c = Char.ofNat 12 then ['\\', 'f']
  else if c = Char.ofNat 13 then ['\\', 'r']
  else if c.toNat < 32 then
    ['\\', 'u', '0', '0', hexDigitChar (c.toNat / 16), hexDigitChar (c.toNat % 16)]
  else [c]

def jsonQuote (s : String) : List Char :=
  '"' :: s.data.flatMap jsonEscapeChar ++ ['"']

mutual

/-- Compact JSON rendering of a value, matching `serde_json::to_vec`. -/
def Json.render : Json → List Char
  | .null => "null".data
  | .bool b => if b then "true".data else "false".data
  | .num n => (toString n).data
  | .str s => jsonQuote s
  | .arr es => '[' :: Json.renderElems es ++ [']']
  | .obj fs => '\x7b' :: Json.renderFields fs ++ ['\x7d']

def Json.renderElems : List Json → List Char
  | [] => []
  | [x] => Json.render x
  | x :: y :: rest => Json.render x ++ ',' :: Json.renderElems (y :: rest)

def Json.renderFields : List (String × Json) → List Char
  | [] => []
  | [(k, v)] => jsonQuote k ++ ':' :: Json.render v
  | (k, v) :: f :: rest =>
      jsonQuote k ++ ':' :: Json.render v ++ ',' :: Json.renderFields (f :: rest)

end

/-- serde serialisation of `AgentInput` (fields in declaration order). -/
def AgentInput.toJson (i : AgentInput) : Json :=
  .obj [("kind", .str i.kind), ("payload", i.payload)]

/-- serde serialisation of `AgentOutput` (fields in declaration order). -/
def AgentOutput.toJson (o : AgentOutput) : Json :=
  .obj [("kind", .str o.kind), ("payload", o.payload)]

/-- serde externally-tagged serialisation of `PolicyVerdict`: a unit variant
is a bare string, a struct variant an object keyed by the variant name. -/
def PolicyVerdict.toJson : PolicyVerdict → Json
  | .Allow => .str "Allow"
  | .Deny reason => .obj [("Deny", .obj [("reason", .str reason)])]
  | .RequireApproval reason approver_role =>
      .obj [("RequireApproval",
             .obj [("reason", .str reason), ("approver_role", .str approver_role)])]
  | .RequireVerification check_id =>
      .obj [("RequireVerification", .obj [("check_id", .str check_id)])]

/-- serde serialisation of `StepRecord` (fields in declaration order; a
`None` output serialises as JSON null, a `Some` as the output itself). -/
def StepRecord.toJson (r : StepRecord) : Json :=
  .obj [("step", .num r.step),
        ("input", r.input.toJson),
        ("verdict", r.verdict.toJson),
        ("output", match r.output with | none => .null | some o => o.toJson),
        ("timestamp", .str r.timestamp)]

/-- The canonical byte string `serde_json::to_vec(record)` hashed by the
audit chain. -/
def canonicalRecordBytes (r : StepRecord) : List Nat :=
  utf8Bytes (String.mk (Json.render r.toJson))

/-! ## Hash chain (crate veritas-audit, chain.rs and event.rs) -/

/-- Little-endian 8-byte rendering of a `u64` (`u64::to_le_bytes`). -/
def le64 (n : Nat) : List Nat :=
  [n % 256, n >>> 8 % 256, n >>> 16 % 256, n >>> 24 % 256,
   n >>> 32 % 256, n >>> 40 % 256, n >>> 48 % 256, n >>> 56 % 256]

def GENESIS_HASH : String :=
  "0000000000000000000000000000000000000000000000000000000000000000"

structure AuditEvent where
  sequence : Nat
  execution_id : String
  record : StepRecord
  prev_hash : String
  this_hash : String

/-- Translation of `hash_event` in chain.rs: SHA-256 over execution-id
UTF-8 bytes, sequence as little-endian u64, prev-hash ASCII bytes, and the
canonical JSON of the record, rendered as lowercase hex. -/
def hash_event (execution_id : String) (sequence : Nat) (record : StepRecord)
    (prev_hash : String) : String :=
  sha256Hex (utf8Bytes execution_id ++ le64 sequence ++ utf8Bytes prev_hash ++
             canonicalRecordBytes record)

/-- The loop body of `verify_chain`, with the mutable `expected_prev`
as an argument. -/
def verifyFrom (expected_prev : String) : List AuditEvent → Bool
  | [] => true
  | event :: rest =>
      if event.prev_hash ≠ expected_prev then false
      else if event.this_hash ≠
          hash_event event.execution_id event.sequence event.record event.prev_hash
        then false
      else verifyFrom event.this_hash rest

/-- Translation of `verify_chain` in chain.rs. -/
def verify_chain (events : List AuditEvent) : Bool :=
  verifyFrom GENESIS_HASH events

/-! ## In-memory audit writer (crate veritas-audit, memory.rs)

The `Arc<Mutex<InMemoryState>>` interior is modelled by explicit state
passing; in this sequential model the lock cannot be poisoned, so `write`
is total (the only error path of the Rust code is poisoning). -/

structure InMemoryState where
  events : List AuditEvent
  sequence : Nat
  last_hash : String

/-- The state of a fresh `InMemoryAuditWriter` (its `new`). -/
def InMemoryState.init : InMemoryState :=
  ⟨[], 0, GENESIS_HASH⟩

/-- Translation of `InMemoryAuditWriter::write`: compute the hash, append
the event, advance sequence and last hash. -/
def writeRecord (execution_id : String) (st : InMemoryState)
    (record : StepRecord) : InMemoryState :=
  let prev_hash := st.last_hash
  let sequence := st.sequence
  let this_hash := hash_event execution_id sequence record prev_hash
  ⟨st.events ++ [⟨sequence, execution_id, record, prev_hash, this_hash⟩],
   sequence + 1, this_hash⟩

/-- The state after a sequence of successful `write` calls on a fresh
writer for `execution_id`. -/
def writeAll (execution_id : String) (records : List StepRecord) : InMemoryState :=
  records.foldl (writeRecord execution_id) InMemoryState.init

/-- Model of `InMemoryAuditWriter::verify_integrity`: delegate to
`verify_chain` on the stored events. -/
def verify_integrity (st : InMemoryState) : Bool :=
  verify_chain st.events

/-! ## Policy engine (crate veritas-policy, rule.rs and engine.rs) -/

inductive RuleVerdict where
  | allow : RuleVerdict
  | deny : RuleVerdict
  | requireApproval : RuleVerdict
  | requireVerification : RuleVerdict
deriving DecidableEq

structure PolicyRule where
  id : String
  description : String
  action : String
  resource : String
  required_capabilities : List String
  verdict : RuleVerdict
  deny_reason : Option String
  approval_reason : Option String
  approver_role : Option String
  verification_check_id : Option String

structure PolicyConfig where
  rules : List PolicyRule

/-- Translation of `PolicyRule::matches`: literal equality or the wildcard
on each of the action and resource patterns. -/
def PolicyRule.ruleMatches (rule : PolicyRule) (action resource : String) : Bool :=
  (rule.action == "*" || rule.action == action) &&
  (rule.resource == "*" || rule.resource == resource)

/-- The defense-in-depth denial reason of engine.rs (format string of the
capability check inside `evaluate`). -/
def capabilityDenyReason (ruleId missingCap agentId : String) : String :=
  "rule '" ++ ruleId ++ "' requires capability '" ++ missingCap ++
  "' which is not granted to agent '" ++ agentId ++ "'"

/-- Conversion of a matched rule's `RuleVerdict` into a `PolicyVerdict`
(the `match rule.verdict` block of `evaluate`, defaults included). -/
def ruleToVerdict (rule : PolicyRule) : PolicyVerdict :=
  match rule.verdict with
  | .allow => .Allow
  | .deny => .Deny (rule.deny_reason.getD ("denied by rule '" ++ rule.id ++ "'"))
  | .requireApproval =>
      .RequireApproval
        (rule.approval_reason.getD ("approval required by rule '" ++ rule.id ++ "'"))
        (rule.approver_role.getD "unspecified")
  | .requireVerification =>
      .RequireVerification
        (rule.verification_check_id.getD ("check-" ++ rule.id))

/-- The deny-by-default reason of engine.rs. -/
def defaultDenyReason (action resource : String) : String :=
  "denied by default: no policy rule matched action '" ++ action ++
  "' on resource '" ++ resource ++ "'"

/-- The rule loop of `TomlPolicyEngine::evaluate`: first matching rule wins;
a matching rule with a missing required capability denies; no match denies
by default.  The Rust `for` loop over `required_capabilities` returns at
the first missing capability, i.e. at `find?` of the failing predicate. -/
def evaluateRules (ctx : PolicyContext) : List PolicyRule → PolicyVerdict
  | [] => .Deny (defaultDenyReason ctx.action ctx.resource)
  | rule :: rest =>
      if rule.ruleMatches ctx.action ctx.resource then
        match rule.required_capabilities.find?
            (fun c => !(ctx.capabilities.contains c)) with
        | some missing => .Deny (capabilityDenyReason rule.id missing ctx.agent_id)
        | none => ruleToVerdict rule
      else evaluateRules ctx rest

/-- Translation of `TomlPolicyEngine::evaluate` (the Rust signature returns
`VeritasResult` but has no error path). -/
def TomlPolicyEngine.evaluate (config : PolicyConfig) (ctx : PolicyContext) :
    PolicyVerdict :=
  evaluateRules ctx config.rules

/-! ## Output verifier (crate veritas-verify, engine.rs)

The `jsonschema` crate is external to the repository; the structural phase
is parametrised by `validatorFor`, the model of `jsonschema::validator_for`:
either a compile failure message or a function from the payload to the list
of (instance path, error text) pairs of `iter_errors`.  Custom rules are an
association list modelling the name → function `HashMap`. -/

/-- Split a character list at every dot (Rust `str::split('.')`): the
accumulator holds the current segment's characters in reverse. -/
def splitDotAux : List Char → List Char → List String
  | [], acc => [String.mk acc.reverse]
  | c :: rest, acc =>
      if c = '.' then String.mk acc.reverse :: splitDotAux rest []
      else splitDotAux rest (c :: acc)

def splitDot (s : String) : List String :=
  splitDotAux s.data []

/-- Translation of `SchemaVerifier::resolve_path`: walk the dotted path;
a missing segment or a JSON null at any step is unresolved. -/
def resolvePathSegs : Json → List String → Option Json
  | current, [] => some current
  | current, seg :: rest =>
      match current.getKey seg with
      | some v => if v.isNull then none else resolvePathSegs v rest
      | none => none

def resolve_path (value : Json) (path : String) : Option Json :=
  resolvePathSegs value (splitDot path)

abbrev CustomRules := List (String × (Json → Option String))

/-- The `failure_msg` computation for one semantic rule (the `match` on
`rule.rule_type` inside `SchemaVerifier::verify`). -/
def semanticFailureMsg (custom_rules : CustomRules) (payload : Json) :
    VerificationRuleType → Option String
  | .RequiredField field_path =>
      if (resolve_path payload field_path).isNone then
        some ("required field '" ++ field_path ++ "' is missing or null")
      else none
  | .AllowedValues field_path allowed =>
      match resolve_path payload field_path with
      | none => some ("field '" ++ field_path ++ "' is missing; cannot check allowed values")
      | some actual =>
          if allowed.contains actual then none
          else some ("field '" ++ field_path ++ "' has value " ++
                     String.mk (Json.render actual) ++ " which is not in the allowed set")
  | .ForbiddenPattern field_path pattern =>
      match resolve_path payload field_path with
      | none => none
      | some v =>
          match v.asStr with
          | some s =>
              if strContainsSub s pattern then
                some ("field '" ++ field_path ++ "' contains forbidden pattern '" ++
                      pattern ++ "'")
              else none
          | none => none
  | .Custom function_name =>
      match custom_rules.lookup function_name with
      | some f => f payload
      | none => some ("no custom rule registered for function name '" ++
                      function_name ++ "'")

/-- The abstract outcome of `jsonschema::validator_for`: a compilation
failure message, or the validator's `iter_errors` as (instance path, error
display) pairs per payload. -/
abbrev JsonSchemaValidator := Json → Except String (Json → List (String × String))

/-- Phase 1 of `SchemaVerifier::verify`: structural JSON-Schema failures,
each with rule id "json-schema"; a malformed schema is one failure. -/
def structuralFailures (validatorFor : JsonSchemaValidator) (json_schema : Json)
    (payload : Json) : List VerificationFailure :=
  if json_schema.isNull then []
  else
    match validatorFor json_schema with
    | .ok iterErrors =>
        (iterErrors payload).map fun pe =>
          ⟨"json-schema", "JSON Schema violation at " ++ pe.1 ++ ": " ++ pe.2⟩
    | .error e => [⟨"json-schema", "invalid JSON Schema document: " ++ e⟩]

/-- The body of the phase-2 loop of `SchemaVerifier::verify`: push a
failure carrying the enclosing rule's id when the rule's `failure_msg`
is some, else leave the accumulator unchanged. -/
def pushRuleFailure (custom_rules : CustomRules) (payload : Json)
    (acc : List VerificationFailure) (rule : VerificationRule) :
    List VerificationFailure :=
  match semanticFailureMsg custom_rules payload rule.rule_type with
  | some message => acc ++ [⟨rule.rule_id, message⟩]
  | none => acc

/-- Translation of `SchemaVerifier::verify`: structural phase, then every
semantic rule in declaration order, accumulating all failures; `passed`
is emptiness of the accumulated failures. -/
def SchemaVerifier.verify (custom_rules : CustomRules)
    (validatorFor : JsonSchemaValidator) (output : AgentOutput)
    (schema : OutputSchema) : VerificationReport :=
  let failures := structuralFailures validatorFor schema.json_schema output.payload
  let failures := schema.rules.foldl
    (pushRuleFailure custom_rules output.payload) failures
  ⟨failures.isEmpty, failures⟩

/-! ## Step executor (crate veritas-core, executor.rs)

The trait objects the executor owns are modelled as functions: `policy`
stands for `PolicyEngine::evaluate`, `verifier` for `Verifier::verify`, an
`Agent` bundle for the five agent callbacks.  The audit writer is the
in-memory writer: in this sequential model `write`/`finalize` cannot fail
(their only Rust error path is lock poisoning), so each step yields the
list of records written (always zero or one) instead of threading writer
state.  `StepTrace` additionally records which agent entry points the step
invoked, so that reachability claims about `propose` and `transition` are
statable. -/

structure Agent where
  propose : AgentState → AgentInput → Except VeritasError AgentOutput
  transition : AgentState → AgentOutput → Except VeritasError AgentState
  required_capabilities : AgentState → AgentInput → List String
  describe_action : AgentState → AgentInput → String × String
  is_terminal : AgentState → Bool

structure Executor where
  policy : PolicyContext → Except VeritasError PolicyVerdict
  verifier : AgentOutput → OutputSchema → Except VeritasError VerificationReport
  schema : OutputSchema

/-- The observable outcome of one `Executor::step` call: its return value,
the step records appended to the audit writer, and which of the agent's
`propose` / `transition` callbacks ran, and whether `finalize` ran. -/
structure StepTrace where
  result : Except VeritasError StepResult
  written : List StepRecord
  proposeInvoked : Bool
  transitionInvoked : Bool
  finalized : Bool

/-- The capability-missing denial reason synthesised by step 3 of
`Executor::step`. -/
def capabilityMissingReason (capName action : String) : String :=
  "capability '" ++ capName ++ "' required for action '" ++ action ++
  "' is not granted"

/-- The `PolicyContext` built at step 1 of `Executor::step` from the
agent's `describe_action` answer.  The Rust code collects `capabilities`
from `HashSet` iteration; the model keeps the caller's list order
(membership is all that is ever read). -/
def Executor.policyContext (agent : Agent) (state : AgentState)
    (input : AgentInput) (capabilities : List String) : PolicyContext :=
  let ar := agent.describe_action state input
  ⟨state.agent_id, state.execution_id, state.phase, ar.1, ar.2,
   capabilities, Json.null⟩

/-- Translation of `Executor::step`: describe action, evaluate policy,
check capabilities, propose, verify, transition, audit, finalize —
in that order, with the early returns of the Rust code. -/
def Executor.step (ex : Executor) (agent : Agent) (state : AgentState)
    (input : AgentInput) (capabilities : List String) (now : String) : StepTrace :=
  let ar := agent.describe_action state input
  let action := ar.1
  let policy_ctx := Executor.policyContext agent state input capabilities
  match ex.policy policy_ctx with
  | .error e => ⟨.error e, [], false, false, false⟩
  | .ok verdict =>
    match verdict with
    | .Deny reason =>
        ⟨.ok (.Denied reason state),
         [⟨state.step, input, .Deny reason, none, now⟩], false, false, false⟩
    | .RequireApproval reason approver_role =>
        ⟨.ok (.AwaitingApproval reason approver_role state),
         [⟨state.step, input, .RequireApproval reason approver_role, none, now⟩],
         false, false, false⟩
    | v =>
      match (agent.required_capabilities state input).find?
          (fun c => !(capabilities.contains c)) with
      | some cap_name =>
          ⟨.error (.CapabilityMissing cap_name action),
           [⟨state.step, input, .Deny (capabilityMissingReason cap_name action),
             none, now⟩], false, false, false⟩
      | none =>
        match agent.propose state input with
        | .error e => ⟨.error e, [], true, false, false⟩
        | .ok output =>
          match ex.verifier output ex.schema with
          | .error e => ⟨.error e, [], true, false, false⟩
          | .ok report =>
            if !report.passed then
              ⟨.error (.VerificationFailed (String.intercalate "; "
                 (report.failures.map fun f => "[" ++ f.rule_id ++ "] " ++ f.message))),
               [], true, false, false⟩
            else
              match agent.transition state output with
              | .error e => ⟨.error e, [], true, true, false⟩
              | .ok next_state =>
                let record : StepRecord :=
                  ⟨state.step, input, v, some output, now⟩
                if agent.is_terminal next_state then
                  ⟨.ok (.Complete next_state output), [record], true, true, true⟩
                else
                  ⟨.ok (.Transitioned next_state output), [record], true, true, false⟩

/-! ## Policy engine theorems (claims C5, C6, C7) -/

/-- Skipping non-matching rules leaves evaluation unchanged. -/
theorem evaluateRules_append_no_match (ctx : PolicyContext) (pre rest : List PolicyRule)
    (hpre : ∀ r ∈ pre, r.ruleMatches ctx.action ctx.resource = false) :
    evaluateRules ctx (pre ++ rest) = evaluateRules ctx rest := by
  induction pre with
  | nil => rfl
  | cons r rs ih =>
      have hr : r.ruleMatches ctx.action ctx.resource = false :=
        hpre r (List.mem_cons_self r rs)
      simp only [List.cons_append, evaluateRules, hr, Bool.false_eq_true, if_false]
      exact ih fun x hx => hpre x (List.mem_cons_of_mem r hx)

/-- C5: if no rule's action and resource patterns both match the context,
`TomlPolicyEngine::evaluate` returns `Deny` with exactly the deny-by-default
reason string, with the context's action and resource substituted. -/
theorem policy_deny_by_default (config : PolicyConfig) (ctx : PolicyContext)
    (hnm : ∀ rule ∈ config.rules, rule.ruleMatches ctx.action ctx.resource = false) :
    TomlPolicyEngine.evaluate config ctx =
      .Deny ("denied by default: no policy rule matched action '" ++ ctx.action ++
             "' on resource '" ++ ctx.resource ++ "'") := by
  have h := evaluateRules_append_no_match ctx config.rules [] hnm
  simp only [List.append_nil] at h
  unfold TomlPolicyEngine.evaluate
  rw [h]
  rfl

def ctxC5 : PolicyContext :=
  ⟨"agent-a", "exec-1", "intake", "write", "chart", ["phi:read"], Json.null⟩

def ruleC5 : PolicyRule :=
  ⟨"r-read", "reads only", "read", "*", [], .allow, none, none, none, none⟩

/-- Witness for C5 at a one-rule document whose rule does not match. -/
theorem policy_deny_by_default_witness :
    TomlPolicyEngine.evaluate ⟨[ruleC5]⟩ ctxC5 =
      .Deny ("denied by default: no policy rule matched action '" ++ ctxC5.action ++
             "' on resource '" ++ ctxC5.resource ++ "'") :=
  policy_deny_by_default ⟨[ruleC5]⟩ ctxC5 (by decide)

/-- C6: when the first matching rule lists a required capability missing
from the context, evaluation denies regardless of the rule's own verdict,
citing the rule id, the missing capability and the agent id. -/
theorem policy_capability_overrides_verdict (config : PolicyConfig)
    (ctx : PolicyContext) (pre post : List PolicyRule) (rule : PolicyRule)
    (hsplit : config.rules = pre ++ rule :: post)
    (hpre : ∀ r ∈ pre, r.ruleMatches ctx.action ctx.resource = false)
    (hm : rule.ruleMatches ctx.action ctx.resource = true)
    (cap : String) (hcap : cap ∈ rule.required_capabilities)
    (hmiss : ctx.capabilities.contains cap = false) :
    ∃ missing, missing ∈ rule.required_capabilities ∧
      ctx.capabilities.contains missing = false ∧
      TomlPolicyEngine.evaluate config ctx =
        .Deny ("rule '" ++ rule.id ++ "' requires capability '" ++ missing ++
               "' which is not granted to agent '" ++ ctx.agent_id ++ "'") := by
  have hfind : (rule.required_capabilities.find?
      (fun c => !(ctx.capabilities.contains c))).isSome := by
    rw [List.find?_isSome]
    exact ⟨cap, hcap, by simpa using hmiss⟩
  obtain ⟨missing, hsome⟩ := Option.isSome_iff_exists.mp hfind
  refine ⟨missing, List.mem_of_find?_eq_some hsome, ?_, ?_⟩
  · have := List.find?_some hsome
    simpa using this
  · unfold TomlPolicyEngine.evaluate
    rw [hsplit, evaluateRules_append_no_match ctx pre _ hpre]
    simp only [evaluateRules, hm, if_true, hsome]
    rfl

def ctxC6 : PolicyContext :=
  ⟨"agent-b", "exec-2", "intake", "read", "chart", [], Json.null⟩

def ruleC6 : PolicyRule :=
  ⟨"r-allow", "allow with cap", "read", "*", ["phi:read"], .allow, none, none, none, none⟩

/-- Witness for C6: a matching allow rule with an ungranted capability
denies. -/
theorem policy_capability_overrides_verdict_witness :
    ∃ missing, missing ∈ ruleC6.required_capabilities ∧
      ctxC6.capabilities.contains missing = false ∧
      TomlPolicyEngine.evaluate ⟨[ruleC6]⟩ ctxC6 =
        .Deny ("rule '" ++ ruleC6.id ++ "' requires capability '" ++ missing ++
               "' which is not granted to agent '" ++ ctxC6.agent_id ++ "'") :=
  policy_capability_overrides_verdict ⟨[ruleC6]⟩ ctxC6 [] [] ruleC6 rfl
    (by intro r hr; cases hr) (by decide) "phi:read" (by decide) (by decide)

/-- C7: with at least one matching rule whose required capabilities are all
held, evaluation returns the first matching rule's translated verdict —
the later rules `post` do not appear in the conclusion — with the default
reason, role and check-id strings of engine.rs. -/
theorem policy_first_match_translation (config : PolicyConfig)
    (ctx : PolicyContext) (pre post : List PolicyRule) (rule : PolicyRule)
    (hsplit : config.rules = pre ++ rule :: post)
    (hpre : ∀ r ∈ pre, r.ruleMatches ctx.action ctx.resource = false)
    (hm : rule.ruleMatches ctx.action ctx.resource = true)
    (hcaps : ∀ c ∈ rule.required_capabilities, ctx.capabilities.contains c = true) :
    TomlPolicyEngine.evaluate config ctx =
      match rule.verdict with
      | .allow => .Allow
      | .deny => .Deny (rule.deny_reason.getD ("denied by rule '" ++ rule.id ++ "'"))
      | .requireApproval =>
          .RequireApproval
            (rule.approval_reason.getD ("approval required by rule '" ++ rule.id ++ "'"))
            (rule.approver_role.getD "unspecified")
      | .requireVerification =>
          .RequireVerification (rule.verification_check_id.getD ("check-" ++ rule.id)) := by
  have hfind : rule.required_capabilities.find?
      (fun c => !(ctx.capabilities.contains c)) = none := by
    rw [List.find?_eq_none]
    intro c hc
    simpa using hcaps c hc
  unfold TomlPolicyEngine.evaluate
  rw [hsplit, evaluateRules_append_no_match ctx pre _ hpre]
  simp only [evaluateRules, hm, if_true, hfind]
  rfl

def ctxC7 : PolicyContext :=
  ⟨"agent-c", "exec-3", "intake", "read", "chart", [], Json.null⟩

def ruleC7 : PolicyRule :=
  ⟨"r-first", "first", "read", "*", [], .requireApproval, none, none, none, none⟩

def ruleC7b : PolicyRule :=
  ⟨"r-second", "second", "*", "*", [], .deny, some "never reached", none, none, none⟩

/-- Witness for C7: of two matching rules the first (require-approval with
defaulted reason and role) wins. -/
theorem policy_first_match_translation_witness :
    TomlPolicyEngine.evaluate ⟨[ruleC7, ruleC7b]⟩ ctxC7 =
      .RequireApproval "approval required by rule 'r-first'" "unspecified" :=
  policy_first_match_translation ⟨[ruleC7, ruleC7b]⟩ ctxC7 [] [ruleC7b] ruleC7 rfl
    (by intro r hr; cases hr) (by decide) (by intro c hc; cases hc)

/-! ## Output verifier theorems (claims C9, C10) -/

/-- The phase-2 fold prepends its accumulator to the per-rule failures of
the remaining rules, in declaration order. -/
theorem foldl_pushRuleFailure (custom_rules : CustomRules) (payload : Json)
    (rules : List VerificationRule) :
    ∀ acc, rules.foldl (pushRuleFailure custom_rules payload) acc =
      acc ++ rules.filterMap (fun rule =>
        (semanticFailureMsg custom_rules payload rule.rule_type).map
          fun m => ⟨rule.rule_id, m⟩) := by
  induction rules with
  | nil => intro acc; simp
  | cons r rs ih =>
      intro acc
      simp only [List.foldl_cons, List.filterMap_cons]
      cases h : semanticFailureMsg custom_rules payload r.rule_type with
      | none => simp [pushRuleFailure, h, ih]
      | some m => simp [pushRuleFailure, h, ih, List.append_assoc]

theorem Json.asStr_eq_some (v : Json) (s : String) :
    v.asStr = some s ↔ v = .str s := by
  cases v <;> simp [Json.asStr]

/-- C9: the verification report characterisation.  `passed` is emptiness of
`failures`; the failures are the structural failures followed by one
failure per failing semantic rule in declaration order, each carrying its
rule's id (structural ones the id "json-schema"); and each semantic rule
kind fails exactly under its specified condition. -/
theorem verifier_report_characterisation (custom_rules : CustomRules)
    (validatorFor : JsonSchemaValidator) (output : AgentOutput)
    (schema : OutputSchema) :
    ((SchemaVerifier.verify custom_rules validatorFor output schema).passed = true ↔
      (SchemaVerifier.verify custom_rules validatorFor output schema).failures = []) ∧
    (SchemaVerifier.verify custom_rules validatorFor output schema).failures =
      structuralFailures validatorFor schema.json_schema output.payload ++
      schema.rules.filterMap (fun rule =>
        (semanticFailureMsg custom_rules output.payload rule.rule_type).map
          fun m => ⟨rule.rule_id, m⟩) ∧
    (∀ f ∈ structuralFailures validatorFor schema.json_schema output.payload,
      f.rule_id = "json-schema") ∧
    (∀ p, (semanticFailureMsg custom_rules output.payload (.RequiredField p)).isSome ↔
      resolve_path output.payload p = none) ∧
    (∀ p allowed,
      (semanticFailureMsg custom_rules output.payload (.AllowedValues p allowed)).isSome ↔
        resolve_path output.payload p = none ∨
        ∃ v, resolve_path output.payload p = some v ∧ allowed.contains v = false) ∧
    (∀ p pat,
      (semanticFailureMsg custom_rules output.payload (.ForbiddenPattern p pat)).isSome ↔
        ∃ s, resolve_path output.payload p = some (.str s) ∧ strContainsSub s pat = true) ∧
    (∀ name, (semanticFailureMsg custom_rules output.payload (.Custom name)).isSome ↔
      custom_rules.lookup name = none ∨
      ∃ f, custom_rules.lookup name = some f ∧ (f output.payload).isSome) := by
  have hfail : (SchemaVerifier.verify custom_rules validatorFor output schema).failures =
      structuralFailures validatorFor schema.json_schema output.payload ++
      schema.rules.filterMap (fun rule =>
        (semanticFailureMsg custom_rules output.payload rule.rule_type).map
          fun m => ⟨rule.rule_id, m⟩) := by
    unfold SchemaVerifier.verify
    simp only [foldl_pushRuleFailure]
  refine ⟨?_, hfail, ?_, ?_, ?_, ?_, ?_⟩
  · unfold SchemaVerifier.verify
    simp only [foldl_pushRuleFailure]
    exact List.isEmpty_iff
  · intro f hf
    unfold structuralFailures at hf
    split at hf
    · cases hf
    · split at hf
      · obtain ⟨pe, _, hpe⟩ := List.mem_map.mp hf
        rw [← hpe]
      · simp only [List.mem_singleton] at hf
        rw [hf]
  · intro p
    simp only [semanticFailureMsg]
    cases h : resolve_path output.payload p <;> simp [h]
  · intro p allowed
    simp only [semanticFailureMsg]
    cases h : resolve_path output.payload p with
    | none => simp [h]
    | some actual =>
        cases hc : allowed.contains actual <;> simp [h, hc]
  · intro p pat
    simp only [semanticFailureMsg]
    cases h : resolve_path output.payload p with
    | none => simp [h]
    | some v =>
        cases hs : v.asStr with
        | none =>
            simp only [h, hs, Option.isSome_none, Bool.false_eq_true, false_iff]
            rintro ⟨s, hv, _⟩
            rw [Option.some_inj] at hv
            subst hv
            simp [Json.asStr] at hs
        | some s =>
            have hv : v = .str s := (Json.asStr_eq_some v s).mp hs
            subst hv
            cases hcon : strContainsSub s pat <;> simp [h, hs, hcon]
  · intro name
    cases h : custom_rules.lookup name with
    | none => simp [semanticFailureMsg, h]
    | some f => simp [semanticFailureMsg, h]

def outC9 : AgentOutput :=
  ⟨"response", .obj [("status", .str "ok")]⟩

def schemaC9 : OutputSchema :=
  ⟨"s-v1", Json.null,
   [⟨"req-status", "status present", .RequiredField "status"⟩,
    ⟨"req-id", "id present", .RequiredField "patient.id"⟩]⟩

def validatorC9 : JsonSchemaValidator := fun _ => .error "unused"

/-- Witness for C9 at a concrete schema with one passing and one failing
rule. -/
theorem verifier_report_characterisation_witness :
    ((SchemaVerifier.verify [] validatorC9 outC9 schemaC9).passed = true ↔
      (SchemaVerifier.verify [] validatorC9 outC9 schemaC9).failures = []) ∧
    (SchemaVerifier.verify [] validatorC9 outC9 schemaC9).failures =
      [⟨"req-id", "required field 'patient.id' is missing or null"⟩] := by
  have h := verifier_report_characterisation [] validatorC9 outC9 schemaC9
  refine ⟨h.1, ?_⟩
  rw [h.2.1]
  decide

/-- C10: a `ForbiddenPattern` rule whose pattern is the empty string fails
on every payload whose path resolves to a string, so a schema carrying it
never passes such an output; the failure carries the rule's id and the
code's message with the empty pattern. -/
theorem forbidden_empty_pattern_rejects (custom_rules : CustomRules)
    (validatorFor : JsonSchemaValidator) (output : AgentOutput)
    (schemaId ruleId desc path s : String)
    (hres : resolve_path output.payload path = some (.str s)) :
    (SchemaVerifier.verify custom_rules validatorFor output
        ⟨schemaId, Json.null, [⟨ruleId, desc, .ForbiddenPattern path ""⟩]⟩).passed = false ∧
    (SchemaVerifier.verify custom_rules validatorFor output
        ⟨schemaId, Json.null, [⟨ruleId, desc, .ForbiddenPattern path ""⟩]⟩).failures =
      [⟨ruleId, "field '" ++ path ++ "' contains forbidden pattern '" ++ "" ++ "'"⟩] := by
  have hsub : strContainsSub s "" = true := by
    unfold strContainsSub
    cases s.data <;> simp [listContainsSub, List.isPrefixOf]
  have hmsg : semanticFailureMsg custom_rules output.payload
      (.ForbiddenPattern path "") =
      some ("field '" ++ path ++ "' contains forbidden pattern '" ++ "" ++ "'") := by
    simp [semanticFailureMsg, hres, Json.asStr, hsub]
  constructor
  · unfold SchemaVerifier.verify structuralFailures
    simp [pushRuleFailure, hmsg, Json.isNull]
  · unfold SchemaVerifier.verify structuralFailures
    simp [pushRuleFailure, hmsg, Json.isNull]

def outC10 : AgentOutput :=
  ⟨"response", .obj [("text", .str "hello")]⟩

/-- Witness for C10 at a payload whose "text" field is the string
"hello". -/
theorem forbidden_empty_pattern_rejects_witness :
    (SchemaVerifier.verify [] validatorC9 outC10
        ⟨"s-v2", Json.null, [⟨"no-empty", "d", .ForbiddenPattern "text" ""⟩]⟩).passed
      = false :=
  (forbidden_empty_pattern_rejects [] validatorC9 outC10 "s-v2" "no-empty" "d"
    "text" "hello" rfl).1

/-! ## Step executor theorems (claims C1, C2, C8) -/

/-- Inversion of `Executor.step`: exactly one of the ten terminal branches
of the pipeline happened, with the scrutinee values that led there. -/
theorem Executor.step_cases (ex : Executor) (agent : Agent) (state : AgentState)
    (input : AgentInput) (capabilities : List String) (now : String) :
    (∃ e, ex.policy (Executor.policyContext agent state input capabilities) = .error e ∧
      ex.step agent state input capabilities now = ⟨.error e, [], false, false, false⟩) ∨
    (∃ reason,
      ex.policy (Executor.policyContext agent state input capabilities) = .ok (.Deny reason) ∧
      ex.step agent state input capabilities now =
        ⟨.ok (.Denied reason state),
         [⟨state.step, input, .Deny reason, none, now⟩], false, false, false⟩) ∨
    (∃ reason role,
      ex.policy (Executor.policyContext agent state input capabilities) =
        .ok (.RequireApproval reason role) ∧
      ex.step agent state input capabilities now =
        ⟨.ok (.AwaitingApproval reason role state),
         [⟨state.step, input, .RequireApproval reason role, none, now⟩],
         false, false, false⟩) ∨
    (∃ v cap,
      (v = .Allow ∨ ∃ cid, v = .RequireVerification cid) ∧
      ex.policy (Executor.policyContext agent state input capabilities) = .ok v ∧
      (agent.required_capabilities state input).find?
        (fun c => !(capabilities.contains c)) = some cap ∧
      ex.step agent state input capabilities now =
        ⟨.error (.CapabilityMissing cap (agent.describe_action state input).1),
         [⟨state.step, input,
           .Deny (capabilityMissingReason cap (agent.describe_action state input).1),
           none, now⟩], false, false, false⟩) ∨
    (∃ v e,
      (v = .Allow ∨ ∃ cid, v = .RequireVerification cid) ∧
      ex.policy (Executor.policyContext agent state input capabilities) = .ok v ∧
      (agent.required_capabilities state input).find?
        (fun c => !(capabilities.contains c)) = none ∧
      agent.propose state input = .error e ∧
      ex.step agent state input capabilities now = ⟨.error e, [], true, false, false⟩) ∨
    (∃ v output e,
      (v = .Allow ∨ ∃ cid, v = .RequireVerification cid) ∧
      ex.policy (Executor.policyContext agent state input capabilities) = .ok v ∧
      (agent.required_capabilities state input).find?
        (fun c => !(capabilities.contains c)) = none ∧
      agent.propose state input = .ok output ∧
      ex.verifier output ex.schema = .error e ∧
      ex.step agent state input capabilities now = ⟨.error e, [], true, false, false⟩) ∨
    (∃ v output report,
      (v = .Allow ∨ ∃ cid, v = .RequireVerification cid) ∧
      ex.policy (Executor.policyContext agent state input capabilities) = .ok v ∧
      (agent.required_capabilities state input).find?
        (fun c => !(capabilities.contains c)) = none ∧
      agent.propose state input = .ok output ∧
      ex.verifier output ex.schema = .ok report ∧
      report.passed = false ∧
      ex.step agent state input capabilities now =
        ⟨.error (.VerificationFailed (String.intercalate "; "
           (report.failures.map fun f => "[" ++ f.rule_id ++ "] " ++ f.message))),
         [], true, false, false⟩) ∨
    (∃ v output report e,
      (v = .Allow ∨ ∃ cid, v = .RequireVerification cid) ∧
      ex.policy (Executor.policyContext agent state input capabilities) = .ok v ∧
      (agent.required_capabilities state input).find?
        (fun c => !(capabilities.contains c)) = none ∧
      agent.propose state input = .ok output ∧
      ex.verifier output ex.schema = .ok report ∧
      report.passed = true ∧
      agent.transition state output = .error e ∧
      ex.step agent state input capabilities now = ⟨.error e, [], true, true, false⟩) ∨
    (∃ v output report next_state,
      (v = .Allow ∨ ∃ cid, v = .RequireVerification cid) ∧
      ex.policy (Executor.policyContext agent state input capabilities) = .ok v ∧
      (agent.required_capabilities state input).find?
        (fun c => !(capabilities.contains c)) = none ∧
      agent.propose state input = .ok output ∧
      ex.verifier output ex.schema = .ok report ∧
      report.passed = true ∧
      agent.transition state output = .ok next_state ∧
      agent.is_terminal next_state = true ∧
      ex.step agent state input capabilities now =
        ⟨.ok (.Complete next_state output),
         [⟨state.step, input, v, some output, now⟩], true, true, true⟩) ∨
    (∃ v output report next_state,
      (v = .Allow ∨ ∃ cid, v = .RequireVerification cid) ∧
      ex.policy (Executor.policyContext agent state input capabilities) = .ok v ∧
      (agent.required_capabilities state input).find?
        (fun c => !(capabilities.contains c)) = none ∧
      agent.propose state input = .ok output ∧
      ex.verifier output ex.schema = .ok report ∧
      report.passed = true ∧
      agent.transition state output = .ok next_state ∧
      agent.is_terminal next_state = false ∧
      ex.step agent state input capabilities now =
        ⟨.ok (.Transitioned next_state output),
         [⟨state.step, input, v, some output, now⟩], true, true, false⟩) := by
  simp only [Executor.step]
  cases hpol : ex.policy (Executor.policyContext agent state input capabilities) with
  | error e => exact Or.inl ⟨e, rfl, rfl⟩
  | ok verdict =>
    cases verdict with
    | Deny reason => exact Or.inr (Or.inl ⟨reason, rfl, rfl⟩)
    | RequireApproval reason role =>
        exact Or.inr (Or.inr (Or.inl ⟨reason, role, rfl, rfl⟩))
    | Allow =>
        cases hfind : (agent.required_capabilities state input).find?
            (fun c => !(capabilities.contains c)) with
        | some cap =>
            exact Or.inr (Or.inr (Or.inr (Or.inl
              ⟨.Allow, cap, Or.inl rfl, rfl, rfl, rfl⟩)))
        | none =>
            cases hprop : agent.propose state input with
            | error e =>
                exact Or.inr (Or.inr (Or.inr (Or.inr (Or.inl
                  ⟨.Allow, e, Or.inl rfl, rfl, rfl, rfl, rfl⟩))))
            | ok output =>
                cases hver : ex.verifier output ex.schema with
                | error e =>
                    refine Or.inr (Or.inr (Or.inr (Or.inr (Or.inr (Or.inl
                      ⟨.Allow, output, e, Or.inl rfl, rfl, rfl, rfl, hver, ?_⟩)))))
                    simp [hver]
                | ok report =>
                    cases hpass : report.passed with
                    | false =>
                        refine Or.inr (Or.inr (Or.inr (Or.inr (Or.inr (Or.inr (Or.inl
                          ⟨.Allow, output, report, Or.inl rfl, rfl, rfl, rfl, hver,
                           hpass, ?_⟩))))))
                        simp [hver, hpass]
                    | true =>
                        cases htrans : agent.transition state output with
                        | error e =>
                            refine Or.inr (Or.inr (Or.inr (Or.inr (Or.inr (Or.inr
                              (Or.inr (Or.inl ⟨.Allow, output, report, e, Or.inl rfl,
                               rfl, rfl, rfl, hver, hpass, htrans, ?_⟩)))))))
                            simp [hver, hpass, htrans]
                        | ok next_state =>
                            cases hterm : agent.is_terminal next_state with
                            | true =>
                                refine Or.inr (Or.inr (Or.inr (Or.inr (Or.inr (Or.inr
                                  (Or.inr (Or.inr (Or.inl ⟨.Allow, output, report,
                                   next_state, Or.inl rfl, rfl, rfl, rfl, hver, hpass,
                                   htrans, hterm, ?_⟩))))))))
                                simp [hver, hpass, htrans, hterm]
                            | false =>
                                refine Or.inr (Or.inr (Or.inr (Or.inr (Or.inr (Or.inr
                                  (Or.inr (Or.inr (Or.inr ⟨.Allow, output, report,
                                   next_state, Or.inl rfl, rfl, rfl, rfl, hver, hpass,
                                   htrans, hterm, ?_⟩))))))))
                                simp [hver, hpass, htrans, hterm]
    | RequireVerification cid =>
        cases hfind : (agent.required_capabilities state input).find?
            (fun c => !(capabilities.contains c)) with
        | some cap =>
            exact Or.inr (Or.inr (Or.inr (Or.inl
              ⟨.RequireVerification cid, cap, Or.inr ⟨cid, rfl⟩, rfl, rfl, rfl⟩)))
        | none =>
            cases hprop : agent.propose state input with
            | error e =>
                exact Or.inr (Or.inr (Or.inr (Or.inr (Or.inl
                  ⟨.RequireVerification cid, e, Or.inr ⟨cid, rfl⟩, rfl, rfl, rfl, rfl⟩))))
            | ok output =>
                cases hver : ex.verifier output ex.schema with
                | error e =>
                    refine Or.inr (Or.inr (Or.inr (Or.inr (Or.inr (Or.inl
                      ⟨.RequireVerification cid, output, e, Or.inr ⟨cid, rfl⟩, rfl,
                       rfl, rfl, hver, ?_⟩)))))
                    simp [hver]
                | ok report =>
                    cases hpass : report.passed with
                    | false =>
                        refine Or.inr (Or.inr (Or.inr (Or.inr (Or.inr (Or.inr (Or.inl
                          ⟨.RequireVerification cid, output, report, Or.inr ⟨cid, rfl⟩,
                           rfl, rfl, rfl, hver, hpass, ?_⟩))))))
                        simp [hver, hpass]
                    | true =>
                        cases htrans : agent.transition state output with
                        | error e =>
                            refine Or.inr (Or.inr (Or.inr (Or.inr (Or.inr (Or.inr
                              (Or.inr (Or.inl ⟨.RequireVerification cid, output, report,
                               e, Or.inr ⟨cid, rfl⟩, rfl, rfl, rfl, hver, hpass,
                               htrans, ?_⟩)))))))
                            simp [hver, hpass, htrans]
                        | ok next_state =>
                            cases hterm : agent.is_terminal next_state with
                            | true =>
                                refine Or.inr (Or.inr (Or.inr (Or.inr (Or.inr (Or.inr
                                  (Or.inr (Or.inr (Or.inl ⟨.RequireVerification cid,
                                   output, report, next_state, Or.inr ⟨cid, rfl⟩, rfl,
                                   rfl, rfl, hver, hpass, htrans, hterm, ?_⟩))))))))
                                simp [hver, hpass, htrans, hterm]
                            | false =>
                                refine Or.inr (Or.inr (Or.inr (Or.inr (Or.inr (Or.inr
                                  (Or.inr (Or.inr (Or.inr ⟨.RequireVerification cid,
                                   output, report, next_state, Or.inr ⟨cid, rfl⟩, rfl,
                                   rfl, rfl, hver, hpass, htrans, hterm, ?_⟩))))))))
                                simp [hver, hpass, htrans, hterm]

/-- A `find?` miss on the capability predicate means every required
capability is contained in the set. -/
theorem find_none_all_contains {req caps : List String}
    (hfind : req.find? (fun c => !(caps.contains c)) = none) :
    ∀ c ∈ req, caps.contains c = true := by
  intro c hc
  have := List.find?_eq_none.mp hfind c hc
  simpa using this

/-- C1: `propose` is invoked if and only if the policy verdict is `Allow`
or `RequireVerification` and every agent-required capability is in the
capability set; on `Deny`, `RequireApproval`, a policy error, or a missing
capability, `propose` is never invoked. -/
theorem executor_propose_gating (ex : Executor) (agent : Agent)
    (state : AgentState) (input : AgentInput) (capabilities : List String)
    (now : String) :
    (ex.step agent state input capabilities now).proposeInvoked = true ↔
      ∃ v, ex.policy (Executor.policyContext agent state input capabilities) = .ok v ∧
        (v = .Allow ∨ ∃ cid, v = .RequireVerification cid) ∧
        ∀ c ∈ agent.required_capabilities state input,
          capabilities.contains c = true := by
  rcases Executor.step_cases ex agent state input capabilities now with
      ⟨e, hpol, hstep⟩ | ⟨reason, hpol, hstep⟩ | ⟨reason, role, hpol, hstep⟩ |
      ⟨v, cap, hv, hpol, hfind, hstep⟩ | ⟨v, e, hv, hpol, hfind, hprop, hstep⟩ |
      ⟨v, output, e, hv, hpol, hfind, hprop, hver, hstep⟩ |
      ⟨v, output, report, hv, hpol, hfind, hprop, hver, hpass, hstep⟩ |
      ⟨v, output, report, e, hv, hpol, hfind, hprop, hver, hpass, htrans, hstep⟩ |
      ⟨v, output, report, next, hv, hpol, hfind, hprop, hver, hpass, htrans, hterm, hstep⟩ |
      ⟨v, output, report, next, hv, hpol, hfind, hprop, hver, hpass, htrans, hterm, hstep⟩
  · rw [hstep]
    constructor
    · intro h; simp at h
    · rintro ⟨v, hv, -, -⟩
      rw [hpol] at hv
      cases hv
  · rw [hstep]
    constructor
    · intro h; simp at h
    · rintro ⟨v, hv, rfl | ⟨cid, rfl⟩, -⟩ <;> rw [hpol] at hv <;> simp at hv
  · rw [hstep]
    constructor
    · intro h; simp at h
    · rintro ⟨v, hv, rfl | ⟨cid, rfl⟩, -⟩ <;> rw [hpol] at hv <;> simp at hv
  · rw [hstep]
    constructor
    · intro h; simp at h
    · rintro ⟨v', hv', -, hall⟩
      have hmem := List.mem_of_find?_eq_some hfind
      have hpred := List.find?_some hfind
      simp at hpred
      exact absurd (show cap ∈ capabilities by simpa using hall cap hmem) hpred
  · rw [hstep]
    exact ⟨fun _ => ⟨v, hpol, hv, find_none_all_contains hfind⟩, fun _ => rfl⟩
  · rw [hstep]
    exact ⟨fun _ => ⟨v, hpol, hv, find_none_all_contains hfind⟩, fun _ => rfl⟩
  · rw [hstep]
    exact ⟨fun _ => ⟨v, hpol, hv, find_none_all_contains hfind⟩, fun _ => rfl⟩
  · rw [hstep]
    exact ⟨fun _ => ⟨v, hpol, hv, find_none_all_contains hfind⟩, fun _ => rfl⟩
  · rw [hstep]
    exact ⟨fun _ => ⟨v, hpol, hv, find_none_all_contains hfind⟩, fun _ => rfl⟩
  · rw [hstep]
    exact ⟨fun _ => ⟨v, hpol, hv, find_none_all_contains hfind⟩, fun _ => rfl⟩

def stA : AgentState := ⟨"test-agent", "exec-w", "active", Json.null, 0⟩

def inA : AgentInput := ⟨"user_message", .obj [("text", .str "hello")]⟩

def outA : AgentOutput := ⟨"response", .obj [("text", .str "ok")]⟩

def agentMock : Agent :=
  ⟨fun _ _ => .ok outA,
   fun s _ => .ok ⟨s.agent_id, s.execution_id, "next", s.context, s.step + 1⟩,
   fun _ _ => [],
   fun _ _ => ("respond", "user"),
   fun _ => false⟩

def agentCap : Agent :=
  ⟨fun _ _ => .error (.StateMachineError "propose must not run"),
   fun s _ => .ok s,
   fun _ _ => ["phi:read"],
   fun _ _ => ("read_phi", "patient_record"),
   fun _ => false⟩

def agentForge : Agent :=
  ⟨fun _ _ => .error (.CapabilityMissing "forged-cap" "forged-action"),
   fun s _ => .ok s,
   fun _ _ => [],
   fun _ _ => ("respond", "user"),
   fun _ => false⟩

def schemaMock : OutputSchema := ⟨"test-schema-v1", Json.null, []⟩

def verifierPass : AgentOutput → OutputSchema → Except VeritasError VerificationReport :=
  fun _ _ => .ok ⟨true, []⟩

def exAllow : Executor := ⟨fun _ => .ok .Allow, verifierPass, schemaMock⟩

def exDeny : Executor := ⟨fun _ => .ok (.Deny "not allowed"), verifierPass, schemaMock⟩

def exApprove : Executor :=
  ⟨fun _ => .ok (.RequireApproval "high risk action" "attending_physician"),
   verifierPass, schemaMock⟩

def exFailVer : Executor :=
  ⟨fun _ => .ok .Allow,
   fun _ _ => .ok ⟨false, [⟨"required-field", "field 'patient_id' is missing"⟩]⟩,
   schemaMock⟩

/-- Witness for C1: with an allowing policy and no required capabilities,
`propose` is invoked. -/
theorem executor_propose_gating_witness :
    (exAllow.step agentMock stA inA [] "t").proposeInvoked = true :=
  (executor_propose_gating exAllow agentMock stA inA [] "t").mpr
    ⟨.Allow, rfl, Or.inl rfl, by intro c hc; simp [agentMock] at hc⟩

/-- C2 (amended): a `Denied` result appends exactly one record with the
policy's `Deny` verdict and no output; an `AwaitingApproval` result appends
exactly one record with the policy's `RequireApproval` and no output; and
when the policy allowed but an agent-required capability is missing from
the set, the step fails with `CapabilityMissing` carrying the first missing
capability and the described action, appending exactly one record whose
synthesised `Deny` reason names them.  (The unamended claim's converse
direction for `CapabilityMissing` fails: an agent-forged `CapabilityMissing`
error propagates with no record — see the counterexample.) -/
theorem executor_audit_on_blocked_steps (ex : Executor) (agent : Agent)
    (state : AgentState) (input : AgentInput) (capabilities : List String)
    (now : String) :
    (∀ reason final_state,
      (ex.step agent state input capabilities now).result =
          .ok (.Denied reason final_state) →
      (ex.step agent state input capabilities now).written =
        [⟨state.step, input, .Deny reason, none, now⟩] ∧
      ex.policy (Executor.policyContext agent state input capabilities) =
        .ok (.Deny reason) ∧
      final_state = state) ∧
    (∀ reason role suspended,
      (ex.step agent state input capabilities now).result =
          .ok (.AwaitingApproval reason role suspended) →
      (ex.step agent state input capabilities now).written =
        [⟨state.step, input, .RequireApproval reason role, none, now⟩] ∧
      ex.policy (Executor.policyContext agent state input capabilities) =
        .ok (.RequireApproval reason role) ∧
      suspended = state) ∧
    (∀ v cap,
      ex.policy (Executor.policyContext agent state input capabilities) = .ok v →
      (v = .Allow ∨ ∃ cid, v = .RequireVerification cid) →
      (agent.required_capabilities state input).find?
        (fun c => !(capabilities.contains c)) = some cap →
      (ex.step agent state input capabilities now).result =
        .error (.CapabilityMissing cap (agent.describe_action state input).1) ∧
      (ex.step agent state input capabilities now).written =
        [⟨state.step, input,
          .Deny (capabilityMissingReason cap (agent.describe_action state input).1),
          none, now⟩] ∧
      cap ∈ agent.required_capabilities state input ∧
      capabilities.contains cap = false) := by
  refine ⟨?_, ?_, ?_⟩
  · intro reason final_state h
    rcases Executor.step_cases ex agent state input capabilities now with
        ⟨e, hpol, hstep⟩ | ⟨reason0, hpol, hstep⟩ | ⟨reason0, role0, hpol, hstep⟩ |
        ⟨v, cap, hv, hpol, hfind, hstep⟩ | ⟨v, e, hv, hpol, hfind, hprop, hstep⟩ |
        ⟨v, output, e, hv, hpol, hfind, hprop, hver, hstep⟩ |
        ⟨v, output, report, hv, hpol, hfind, hprop, hver, hpass, hstep⟩ |
        ⟨v, output, report, e, hv, hpol, hfind, hprop, hver, hpass, htrans, hstep⟩ |
        ⟨v, output, report, next, hv, hpol, hfind, hprop, hver, hpass, htrans, hterm, hstep⟩ |
        ⟨v, output, report, next, hv, hpol, hfind, hprop, hver, hpass, htrans, hterm, hstep⟩
    · rw [hstep] at h; simp at h
    · rw [hstep] at h
      obtain ⟨hr, hs⟩ : reason0 = reason ∧ state = final_state := by simpa using h
      subst hr
      rw [hstep]
      exact ⟨rfl, hpol, hs.symm⟩
    · rw [hstep] at h; simp at h
    · rw [hstep] at h; simp at h
    · rw [hstep] at h; simp at h
    · rw [hstep] at h; simp at h
    · rw [hstep] at h; simp at h
    · rw [hstep] at h; simp at h
    · rw [hstep] at h; simp at h
    · rw [hstep] at h; simp at h
  · intro reason role suspended h
    rcases Executor.step_cases ex agent state input capabilities now with
        ⟨e, hpol, hstep⟩ | ⟨reason0, hpol, hstep⟩ | ⟨reason0, role0, hpol, hstep⟩ |
        ⟨v, cap, hv, hpol, hfind, hstep⟩ | ⟨v, e, hv, hpol, hfind, hprop, hstep⟩ |
        ⟨v, output, e, hv, hpol, hfind, hprop, hver, hstep⟩ |
        ⟨v, output, report, hv, hpol, hfind, hprop, hver, hpass, hstep⟩ |
        ⟨v, output, report, e, hv, hpol, hfind, hprop, hver, hpass, htrans, hstep⟩ |
        ⟨v, output, report, next, hv, hpol, hfind, hprop, hver, hpass, htrans, hterm, hstep⟩ |
        ⟨v, output, report, next, hv, hpol, hfind, hprop, hver, hpass, htrans, hterm, hstep⟩
    · rw [hstep] at h; simp at h
    · rw [hstep] at h; simp at h
    · rw [hstep] at h
      obtain ⟨hr, hrole, hs⟩ : reason0 = reason ∧ role0 = role ∧ state = suspended := by
        simpa using h
      subst hr
      subst hrole
      rw [hstep]
      exact ⟨rfl, hpol, hs.symm⟩
    · rw [hstep] at h; simp at h
    · rw [hstep] at h; simp at h
    · rw [hstep] at h; simp at h
    · rw [hstep] at h; simp at h
    · rw [hstep] at h; simp at h
    · rw [hstep] at h; simp at h
    · rw [hstep] at h; simp at h
  · intro v cap hpol0 hv0 hfind0
    rcases Executor.step_cases ex agent state input capabilities now with
        ⟨e, hpol, hstep⟩ | ⟨reason0, hpol, hstep⟩ | ⟨reason0, role0, hpol, hstep⟩ |
        ⟨v1, cap1, hv, hpol, hfind, hstep⟩ | ⟨v1, e, hv, hpol, hfind, hprop, hstep⟩ |
        ⟨v1, output, e, hv, hpol, hfind, hprop, hver, hstep⟩ |
        ⟨v1, output, report, hv, hpol, hfind, hprop, hver, hpass, hstep⟩ |
        ⟨v1, output, report, e, hv, hpol, hfind, hprop, hver, hpass, htrans, hstep⟩ |
        ⟨v1, output, report, next, hv, hpol, hfind, hprop, hver, hpass, htrans, hterm, hstep⟩ |
        ⟨v1, output, report, next, hv, hpol, hfind, hprop, hver, hpass, htrans, hterm, hstep⟩
    · rw [hpol0] at hpol
      cases hpol
    · rw [hpol0] at hpol
      rcases hv0 with rfl | ⟨cid, rfl⟩ <;> simp at hpol
    · rw [hpol0] at hpol
      rcases hv0 with rfl | ⟨cid, rfl⟩ <;> simp at hpol
    · rw [hfind0] at hfind
      obtain rfl : cap1 = cap := by injection hfind.symm
      rw [hstep]
      have hpred := List.find?_some hfind0
      refine ⟨rfl, rfl, List.mem_of_find?_eq_some hfind0, ?_⟩
      simpa using hpred
    · rw [hfind0] at hfind; cases hfind
    · rw [hfind0] at hfind; cases hfind
    · rw [hfind0] at hfind; cases hfind
    · rw [hfind0] at hfind; cases hfind
    · rw [hfind0] at hfind; cases hfind
    · rw [hfind0] at hfind; cases hfind

/-- Counterexample to C2 as stated: an agent whose `propose` returns an
`Err(CapabilityMissing)` of its own making.  The policy allows, the agent
declares no required capabilities, so the executor reaches `propose` and
propagates the error untouched — the step fails with `CapabilityMissing`
yet appends no audit record. -/
theorem executor_capmissing_no_audit_counterexample :
    (exAllow.step agentForge stA inA [] "t").result =
      .error (.CapabilityMissing "forged-cap" "forged-action") ∧
    (exAllow.step agentForge stA inA [] "t").written = [] :=
  ⟨rfl, rfl⟩

/-- Witness for the amended C2 at its three cases: a denying policy, an
approval-requiring policy, and an allowing policy with a missing
agent-required capability. -/
theorem executor_audit_on_blocked_steps_witness :
    (exDeny.step agentMock stA inA [] "t").written =
      [⟨0, inA, .Deny "not allowed", none, "t"⟩] ∧
    (exApprove.step agentMock stA inA [] "t").written =
      [⟨0, inA, .RequireApproval "high risk action" "attending_physician", none, "t"⟩] ∧
    (exAllow.step agentCap stA inA [] "t").result =
      .error (.CapabilityMissing "phi:read" "read_phi") ∧
    (exAllow.step agentCap stA inA [] "t").written =
      [⟨0, inA, .Deny (capabilityMissingReason "phi:read" "read_phi"), none, "t"⟩] := by
  refine ⟨((executor_audit_on_blocked_steps exDeny agentMock stA inA [] "t").1
      "not allowed" stA rfl).1,
    ((executor_audit_on_blocked_steps exApprove agentMock stA inA [] "t").2.1
      "high risk action" "attending_physician" stA rfl).1, ?_, ?_⟩
  · exact ((executor_audit_on_blocked_steps exAllow agentCap stA inA [] "t").2.2
      .Allow "phi:read" rfl (Or.inl rfl) rfl).1
  · exact ((executor_audit_on_blocked_steps exAllow agentCap stA inA [] "t").2.2
      .Allow "phi:read" rfl (Or.inl rfl) rfl).2.1

/-- C8: when the pipeline reaches the verifier and the report has
`passed = false`, the step fails with `VerificationFailed` whose reason is
the failure messages joined as "[rule_id] message; …", writes no audit
record, and never invokes the agent's `transition` (the caller's state is
unchanged). -/
theorem executor_verification_failure (ex : Executor) (agent : Agent)
    (state : AgentState) (input : AgentInput) (capabilities : List String)
    (now : String) (v : PolicyVerdict) (output : AgentOutput)
    (report : VerificationReport)
    (hpol : ex.policy (Executor.policyContext agent state input capabilities) = .ok v)
    (hv : v = .Allow ∨ ∃ cid, v = .RequireVerification cid)
    (hcaps : ∀ c ∈ agent.required_capabilities state input,
      capabilities.contains c = true)
    (hprop : agent.propose state input = .ok output)
    (hver : ex.verifier output ex.schema = .ok report)
    (hpass : report.passed = false) :
    (ex.step agent state input capabilities now).result =
      .error (.VerificationFailed (String.intercalate "; "
        (report.failures.map fun f => "[" ++ f.rule_id ++ "] " ++ f.message))) ∧
    (ex.step agent state input capabilities now).written = [] ∧
    (ex.step agent state input capabilities now).transitionInvoked = false := by
  have hfind0 : (agent.required_capabilities state input).find?
      (fun c => !(capabilities.contains c)) = none := by
    rw [List.find?_eq_none]
    intro c hc
    simpa using hcaps c hc
  rcases Executor.step_cases ex agent state input capabilities now with
      ⟨e, hpol1, hstep⟩ | ⟨reason0, hpol1, hstep⟩ | ⟨reason0, role0, hpol1, hstep⟩ |
      ⟨v1, cap1, hv1, hpol1, hfind, hstep⟩ | ⟨v1, e, hv1, hpol1, hfind, hprop1, hstep⟩ |
      ⟨v1, output1, e, hv1, hpol1, hfind, hprop1, hver1, hstep⟩ |
      ⟨v1, output1, report1, hv1, hpol1, hfind, hprop1, hver1, hpass1, hstep⟩ |
      ⟨v1, output1, report1, e, hv1, hpol1, hfind, hprop1, hver1, hpass1, htrans, hstep⟩ |
      ⟨v1, output1, report1, next, hv1, hpol1, hfind, hprop1, hver1, hpass1, htrans, hterm, hstep⟩ |
      ⟨v1, output1, report1, next, hv1, hpol1, hfind, hprop1, hver1, hpass1, htrans, hterm, hstep⟩
  · rw [hpol] at hpol1
    cases hpol1
  · rw [hpol] at hpol1
    rcases hv with rfl | ⟨cid, rfl⟩ <;> simp at hpol1
  · rw [hpol] at hpol1
    rcases hv with rfl | ⟨cid, rfl⟩ <;> simp at hpol1
  · rw [hfind0] at hfind
    cases hfind
  · rw [hprop] at hprop1
    cases hprop1
  · obtain rfl : output1 = output := by
      rw [hprop] at hprop1
      injection hprop1.symm
    rw [hver] at hver1
    cases hver1
  · obtain rfl : output1 = output := by
      rw [hprop] at hprop1
      injection hprop1.symm
    obtain rfl : report1 = report := by
      rw [hver] at hver1
      injection hver1.symm
    rw [hstep]
    exact ⟨rfl, rfl, rfl⟩
  · obtain rfl : output1 = output := by
      rw [hprop] at hprop1
      injection hprop1.symm
    obtain rfl : report1 = report := by
      rw [hver] at hver1
      injection hver1.symm
    rw [hpass] at hpass1
    cases hpass1
  · obtain rfl : output1 = output := by
      rw [hprop] at hprop1
      injection hprop1.symm
    obtain rfl : report1 = report := by
      rw [hver] at hver1
      injection hver1.symm
    rw [hpass] at hpass1
    cases hpass1
  · obtain rfl : output1 = output := by
      rw [hprop] at hprop1
      injection hprop1.symm
    obtain rfl : report1 = report := by
      rw [hver] at hver1
      injection hver1.symm
    rw [hpass] at hpass1
    cases hpass1

/-- Witness for C8: a verifier returning a single failure makes the step
fail with the joined reason string and no audit record. -/
theorem executor_verification_failure_witness :
    (exFailVer.step agentMock stA inA [] "t").result =
      .error (.VerificationFailed "[required-field] field 'patient_id' is missing") ∧
    (exFailVer.step agentMock stA inA [] "t").written = [] ∧
    (exFailVer.step agentMock stA inA [] "t").transitionInvoked = false :=
  executor_verification_failure exFailVer agentMock stA inA [] "t" .Allow outA
    ⟨false, [⟨"required-field", "field 'patient_id' is missing"⟩]⟩
    rfl (Or.inl rfl) (by intro c hc; simp [agentMock] at hc) rfl rfl rfl

/-! ## Audit chain theorems (claims C3, C4) -/

/-- The chain of events that a sequence of writes starting from previous
hash `h` and sequence number `n` appends. -/
def chainOf (execId : String) (h : String) (n : Nat) :
    List StepRecord → List AuditEvent
  | [] => []
  | r :: rs =>
      ⟨n, execId, r, h, hash_event execId n r h⟩ ::
        chainOf execId (hash_event execId n r h) (n + 1) rs

/-- The hash at the end of a chain segment, starting from `h`. -/
def lastHashOf (h : String) : List AuditEvent → String
  | [] => h
  | e :: rest => lastHashOf e.this_hash rest

/-- Unrolling the writer's fold: writes append `chainOf` of the pending
records and advance sequence and last hash accordingly. -/
theorem foldl_writeRecord (execId : String) (rs : List StepRecord) :
    ∀ st : InMemoryState, rs.foldl (writeRecord execId) st =
      ⟨st.events ++ chainOf execId st.last_hash st.sequence rs,
       st.sequence + rs.length,
       lastHashOf st.last_hash (chainOf execId st.last_hash st.sequence rs)⟩ := by
  induction rs with
  | nil => intro st; simp [chainOf, lastHashOf]
  | cons r rs ih =>
      intro st
      rw [List.foldl_cons, ih, InMemoryState.mk.injEq]
      refine ⟨?_, ?_, ?_⟩
      · show ((st.events ++ [_]) ++ chainOf execId _ _ rs) = _
        rw [List.append_assoc]
        rfl
      · show st.sequence + 1 + rs.length = st.sequence + (r :: rs).length
        simp only [List.length_cons]
        omega
      · rfl

theorem chainOf_map_record (execId : String) :
    ∀ (rs : List StepRecord) (h : String) (n : Nat),
      (chainOf execId h n rs).map AuditEvent.record = rs := by
  intro rs
  induction rs with
  | nil => intro h n; simp [chainOf]
  | cons r rs ih => intro h n; simp [chainOf, ih]

theorem chainOf_length (execId : String) (rs : List StepRecord) (h : String)
    (n : Nat) : (chainOf execId h n rs).length = rs.length := by
  induction rs generalizing h n with
  | nil => simp [chainOf]
  | cons r rs ih => simp [chainOf, ih]

theorem chainOf_sequence (execId : String) :
    ∀ (rs : List StepRecord) (h : String) (n i : Nat)
      (hi : i < (chainOf execId h n rs).length),
      (chainOf execId h n rs)[i].sequence = n + i := by
  intro rs
  induction rs with
  | nil => intro h n i hi; simp [chainOf] at hi
  | cons r rs ih =>
      intro h n i hi
      cases i with
      | zero => simp [chainOf]
      | succ j =>
          have hj : j < (chainOf execId (hash_event execId n r h) (n + 1) rs).length := by
            simpa [chainOf] using hi
          simp only [chainOf, List.getElem_cons_succ]
          rw [ih (hash_event execId n r h) (n + 1) j hj]
          omega

theorem chainOf_execution_id (execId : String) :
    ∀ (rs : List StepRecord) (h : String) (n i : Nat)
      (hi : i < (chainOf execId h n rs).length),
      (chainOf execId h n rs)[i].execution_id = execId := by
  intro rs
  induction rs with
  | nil => intro h n i hi; simp [chainOf] at hi
  | cons r rs ih =>
      intro h n i hi
      cases i with
      | zero => simp [chainOf]
      | succ j =>
          have hj : j < (chainOf execId (hash_event execId n r h) (n + 1) rs).length := by
            simpa [chainOf] using hi
          simp only [chainOf, List.getElem_cons_succ]
          exact ih (hash_event execId n r h) (n + 1) j hj

theorem chainOf_this_hash (execId : String) :
    ∀ (rs : List StepRecord) (h : String) (n i : Nat)
      (hi : i < (chainOf execId h n rs).length),
      (chainOf execId h n rs)[i].this_hash =
        hash_event execId (n + i) (chainOf execId h n rs)[i].record
          (chainOf execId h n rs)[i].prev_hash := by
  intro rs
  induction rs with
  | nil => intro h n i hi; simp [chainOf] at hi
  | cons r rs ih =>
      intro h n i hi
      cases i with
      | zero => simp [chainOf]
      | succ j =>
          have hj : j < (chainOf execId (hash_event execId n r h) (n + 1) rs).length := by
            simpa [chainOf] using hi
          simp only [chainOf, List.getElem_cons_succ]
          rw [ih (hash_event execId n r h) (n + 1) j hj]
          congr 1
          omega

theorem chainOf_prev_zero (execId : String) :
    ∀ (rs : List StepRecord) (h : String) (n : Nat)
      (h0 : 0 < (chainOf execId h n rs).length),
      (chainOf execId h n rs)[0].prev_hash = h := by
  intro rs h n h0
  cases rs with
  | nil => simp [chainOf] at h0
  | cons r rs => simp [chainOf]

theorem chainOf_link (execId : String) :
    ∀ (rs : List StepRecord) (h : String) (n j : Nat)
      (hj : j + 1 < (chainOf execId h n rs).length),
      (chainOf execId h n rs)[j + 1].prev_hash =
        (chainOf execId h n rs)[j].this_hash := by
  intro rs
  induction rs with
  | nil => intro h n j hj; simp [chainOf] at hj
  | cons r rs ih =>
      intro h n j hj
      cases j with
      | zero =>
          have h0 : 0 < (chainOf execId (hash_event execId n r h) (n + 1) rs).length := by
            simpa [chainOf] using hj
          simp only [chainOf, List.getElem_cons_succ, List.getElem_cons_zero]
          exact chainOf_prev_zero execId rs (hash_event execId n r h) (n + 1) h0
      | succ k =>
          have hk : k + 1 < (chainOf execId (hash_event execId n r h) (n + 1) rs).length := by
            simpa [chainOf] using hj
          simp only [chainOf, List.getElem_cons_succ]
          exact ih (hash_event execId n r h) (n + 1) k hk

theorem verifyFrom_chainOf (execId : String) :
    ∀ (rs : List StepRecord) (h : String) (n : Nat),
      verifyFrom h (chainOf execId h n rs) = true := by
  intro rs
  induction rs with
  | nil => intro h n; simp [chainOf, verifyFrom]
  | cons r rs ih =>
      intro h n
      simp only [chainOf, verifyFrom]
      rw [if_neg (by simp), if_neg (by simp)]
      exact ih (hash_event execId n r h) (n + 1)

/-- The events stored by a fresh writer after `rs` writes are exactly the
chain of `rs` from the genesis hash and sequence zero. -/
theorem writeAll_events (execId : String) (rs : List StepRecord) :
    (writeAll execId rs).events = chainOf execId GENESIS_HASH 0 rs := by
  unfold writeAll InMemoryState.init
  rw [foldl_writeRecord]
  simp

theorem getD_mem_or (l : List Char) (d : Char) :
    ∀ n, l.getD n d ∈ l ∨ l.getD n d = d := by
  induction l with
  | nil => intro n; right; cases n <;> rfl
  | cons a t ih =>
      intro n
      cases n with
      | zero => left; simp [List.getD]
      | succ m =>
          rcases ih m with h | h
          · left
            simpa [List.getD] using List.mem_cons_of_mem a (by simpa [List.getD] using h)
          · right
            simpa [List.getD] using h

theorem hexDigitChar_mem (n : Nat) : hexDigitChar n ∈ "0123456789abcdef".data := by
  unfold hexDigitChar
  rcases getD_mem_or "0123456789abcdef".data '0' n with h | h
  · exact h
  · rw [h]; decide

theorem flatPairs_length (bs : List Nat) :
    (bs.flatMap fun b => [hexDigitChar (b / 16 % 16), hexDigitChar (b % 16)]).length =
      2 * bs.length := by
  induction bs with
  | nil => rfl
  | cons b t ih => simp [ih]; omega

theorem hexOfBytes_length (bs : List Nat) : (hexOfBytes bs).length = 2 * bs.length := by
  have h : (hexOfBytes bs).length =
      (bs.flatMap fun b => [hexDigitChar (b / 16 % 16), hexDigitChar (b % 16)]).length := rfl
  rw [h, flatPairs_length]

theorem hexOfBytes_mem (bs : List Nat) (c : Char) (hc : c ∈ (hexOfBytes bs).data) :
    c ∈ "0123456789abcdef".data := by
  have hc' : c ∈ bs.flatMap fun b => [hexDigitChar (b / 16 % 16), hexDigitChar (b % 16)] := hc
  rcases List.mem_flatMap.mp hc' with ⟨b, -, hb⟩
  simp only [List.mem_cons, List.mem_singleton, List.not_mem_nil, or_false] at hb
  rcases hb with rfl | rfl <;> exact hexDigitChar_mem _

theorem sha256Digest_length (msg : List Nat) : (sha256Digest msg).length = 32 := by
  simp [sha256Digest, be32Bytes]

theorem sha256Hex_length (msg : List Nat) : (sha256Hex msg).length = 64 := by
  unfold sha256Hex
  rw [hexOfBytes_length, sha256Digest_length]

theorem sha256Hex_mem (msg : List Nat) (c : Char) (hc : c ∈ (sha256Hex msg).data) :
    c ∈ "0123456789abcdef".data :=
  hexOfBytes_mem _ _ hc

/-- C3: after `n` successful writes on a fresh writer, the stored chain has
exactly the `n` written records in order, dense sequence numbers from 0,
the genesis sentinel as the first `prev_hash`, each later `prev_hash`
equal to the preceding `this_hash`, each `this_hash` the lowercase
64-hex-character SHA-256 of execution-id UTF-8 bytes, sequence as 8-byte
little-endian, prev-hash ASCII bytes and the canonical JSON bytes of the
record — and `verify_integrity` accepts the chain. -/
theorem audit_writer_chain (execId : String) (rs : List StepRecord) :
    (writeAll execId rs).events.length = rs.length ∧
    (writeAll execId rs).events.map AuditEvent.record = rs ∧
    (∀ i (hi : i < (writeAll execId rs).events.length),
      (writeAll execId rs).events[i].sequence = i ∧
      (writeAll execId rs).events[i].execution_id = execId) ∧
    (∀ h0 : 0 < (writeAll execId rs).events.length,
      (writeAll execId rs).events[0].prev_hash = GENESIS_HASH) ∧
    (∀ j (hj : j + 1 < (writeAll execId rs).events.length),
      (writeAll execId rs).events[j + 1].prev_hash =
        (writeAll execId rs).events[j].this_hash) ∧
    (∀ i (hi : i < (writeAll execId rs).events.length),
      (writeAll execId rs).events[i].this_hash =
        sha256Hex (utf8Bytes execId ++ le64 i ++
          utf8Bytes (writeAll execId rs).events[i].prev_hash ++
          canonicalRecordBytes (writeAll execId rs).events[i].record)) ∧
    (∀ i (hi : i < (writeAll execId rs).events.length),
      (writeAll execId rs).events[i].this_hash.length = 64 ∧
      ∀ c ∈ (writeAll execId rs).events[i].this_hash.data,
        c ∈ "0123456789abcdef".data) ∧
    verify_integrity (writeAll execId rs) = true := by
  have he := writeAll_events execId rs
  refine ⟨?_, ?_, ?_, ?_, ?_, ?_, ?_, ?_⟩
  · rw [he, chainOf_length]
  · rw [he, chainOf_map_record]
  · intro i hi
    simp only [he] at hi ⊢
    exact ⟨by simpa using chainOf_sequence execId rs GENESIS_HASH 0 i hi,
           chainOf_execution_id execId rs GENESIS_HASH 0 i hi⟩
  · intro h0
    simp only [he] at h0 ⊢
    exact chainOf_prev_zero execId rs GENESIS_HASH 0 h0
  · intro j hj
    simp only [he] at hj ⊢
    exact chainOf_link execId rs GENESIS_HASH 0 j hj
  · intro i hi
    simp only [he] at hi ⊢
    have h := chainOf_this_hash execId rs GENESIS_HASH 0 i hi
    simpa [hash_event] using h
  · intro i hi
    simp only [he] at hi ⊢
    rw [chainOf_this_hash execId rs GENESIS_HASH 0 i hi]
    exact ⟨sha256Hex_length _, fun c hc => sha256Hex_mem _ c hc⟩
  · unfold verify_integrity verify_chain
    rw [he]
    exact verifyFrom_chainOf execId rs GENESIS_HASH 0

def recA : StepRecord := ⟨0, ⟨"i", Json.null⟩, .Allow, none, "t"⟩

def recB : StepRecord := ⟨0, ⟨"i", .bool true⟩, .Allow, none, "t"⟩

/-- Witness for C3 on a one-record chain. -/
theorem audit_writer_chain_witness :
    (writeAll "e" [recA]).events.length = 1 ∧
    (writeAll "e" [recA]).events.map AuditEvent.record = [recA] ∧
    verify_integrity (writeAll "e" [recA]) = true :=
  ⟨(audit_writer_chain "e" [recA]).1, (audit_writer_chain "e" [recA]).2.1,
   (audit_writer_chain "e" [recA]).2.2.2.2.2.2.2⟩

/-- The loop of `verify_chain`, characterised: acceptance from expected
previous hash `hexp` is exactly prev-hash linkage (first event against
`hexp`) plus hash correctness of every event. -/
theorem verifyFrom_iff :
    ∀ (events : List AuditEvent) (hexp : String),
      verifyFrom hexp events = true ↔
        ((∀ h0 : 0 < events.length, events[0].prev_hash = hexp) ∧
         (∀ j (hj : j + 1 < events.length),
           events[j + 1].prev_hash = events[j].this_hash) ∧
         (∀ i (hi : i < events.length),
           events[i].this_hash = hash_event events[i].execution_id
             events[i].sequence events[i].record events[i].prev_hash)) := by
  intro events
  induction events with
  | nil =>
      intro hexp
      simp [verifyFrom]
  | cons e rest ih =>
      intro hexp
      simp only [verifyFrom]
      by_cases h1 : e.prev_hash = hexp
      · by_cases h2 : e.this_hash =
            hash_event e.execution_id e.sequence e.record e.prev_hash
        · rw [if_neg (not_not_intro h1), if_neg (not_not_intro h2), ih e.this_hash]
          constructor
          · rintro ⟨hfirst, hlink, hhash⟩
            refine ⟨fun _ => by simpa using h1, ?_, ?_⟩
            · intro j hj
              cases j with
              | zero =>
                  have h0 : 0 < rest.length := by simpa using hj
                  simpa using hfirst h0
              | succ k =>
                  have hk : k + 1 < rest.length := by simpa using hj
                  simpa using hlink k hk
            · intro i hi
              cases i with
              | zero => simpa using h2
              | succ k =>
                  have hk : k < rest.length := by simpa using hi
                  simpa using hhash k hk
          · rintro ⟨hfirst, hlink, hhash⟩
            refine ⟨?_, ?_, ?_⟩
            · intro h0
              have h1' : 0 + 1 < (e :: rest).length := by simpa using h0
              simpa using hlink 0 h1'
            · intro j hj
              have hj' : (j + 1) + 1 < (e :: rest).length := by simpa using hj
              simpa using hlink (j + 1) hj'
            · intro i hi
              have hi' : i + 1 < (e :: rest).length := by simpa using hi
              simpa using hhash (i + 1) hi'
        · rw [if_neg (not_not_intro h1), if_pos h2]
          constructor
          · intro hf
            exact absurd hf (by simp)
          · rintro ⟨-, -, hhash⟩
            have h0 : 0 < (e :: rest).length := by simp
            exact absurd (by simpa using hhash 0 h0) h2
      · rw [if_pos h1]
        constructor
        · intro hf
          exact absurd hf (by simp)
        · rintro ⟨hfirst, -, -⟩
          have h0 : 0 < (e :: rest).length := by simp
          exact absurd (by simpa using hfirst h0) h1

/-- C4: `verify_chain` accepts a sequence iff it is empty or every event
in order has the expected `prev_hash` (genesis for the first, the previous
event's `this_hash` after) and a `this_hash` that recomputes from its own
fields; and mutating a stored record of a writer-produced chain to one
whose recomputed hash differs from the stored hash (every mutation that
changes the canonical bytes, short of a SHA-256 collision) makes
`verify_chain` return false. -/
theorem verify_chain_characterisation :
    (∀ events : List AuditEvent,
      verify_chain events = true ↔
        ((∀ h0 : 0 < events.length, events[0].prev_hash = GENESIS_HASH) ∧
         (∀ j (hj : j + 1 < events.length),
           events[j + 1].prev_hash = events[j].this_hash) ∧
         (∀ i (hi : i < events.length),
           events[i].this_hash = hash_event events[i].execution_id
             events[i].sequence events[i].record events[i].prev_hash))) ∧
    (∀ (execId : String) (rs : List StepRecord) (i : Nat)
       (hi : i < (writeAll execId rs).events.length) (r' : StepRecord),
      hash_event execId i r' (writeAll execId rs).events[i].prev_hash ≠
        (writeAll execId rs).events[i].this_hash →
      verify_chain ((writeAll execId rs).events.set i
        { (writeAll execId rs).events[i] with record := r' }) = false) := by
  constructor
  · intro events
    unfold verify_chain
    exact verifyFrom_iff events GENESIS_HASH
  · intro execId rs i hi r' hne
    have he := writeAll_events execId rs
    cases hres : verify_chain ((writeAll execId rs).events.set i
        { (writeAll execId rs).events[i] with record := r' }) with
    | false => rfl
    | true =>
        exfalso
        unfold verify_chain at hres
        obtain ⟨-, -, hhash⟩ := (verifyFrom_iff _ GENESIS_HASH).mp hres
        have hlen : i < ((writeAll execId rs).events.set i
            { (writeAll execId rs).events[i] with record := r' }).length := by
          simpa using hi
        have hx := hhash i hlen
        rw [List.getElem_set_self] at hx
        have hseq : (writeAll execId rs).events[i].sequence = i := by
          simp only [he] at hi ⊢
          simpa using chainOf_sequence execId rs GENESIS_HASH 0 i hi
        have hexec : (writeAll execId rs).events[i].execution_id = execId := by
          simp only [he] at hi ⊢
          exact chainOf_execution_id execId rs GENESIS_HASH 0 i hi
        simp only [hseq, hexec] at hx
        exact hne hx.symm

/-- Witness for C4: a one-record chain with its record replaced by a
different record fails verification (the two concrete SHA-256 values are
computed and differ). -/
theorem verify_chain_characterisation_witness :
    verify_chain ((writeAll "e" [recA]).events.set 0
      { sequence := 0, execution_id := "e", record := recB,
        prev_hash := GENESIS_HASH,
        this_hash := hash_event "e" 0 recA GENESIS_HASH }) = false := by
  have h := verify_chain_characterisation.2 "e" [recA] 0 (by decide) recB (by decide)
  exact h
